import Mathlib

/-!
Verification development for the chat-evaluation pipeline (`main.py`).

The program is shallowly embedded: Python values become the inductive
`PyVal`; Python strings are lists of characters; the two input files are
modelled as `Option (List Char)` (with `Option.none` standing for a file
whose open/read raised an `OSError`); exceptions that may escape a block
are modelled with `Except`.  Every definition is translated from the
source of `main.py` (plus the Python standard-library functions it calls:
`json.loads`, `re.findall`, `bytes.decode("unicode_escape")`, `str`,
`str.strip`, `str.splitlines`, `str.isdigit`).

Modelling notes, stated once here:
  * `str.splitlines` is modelled as splitting on `'\n'` (the universal
    newline variants `'\r'`, `'\r\n'`, `'\x0b'`, ... are not modelled);
    on newline-terminated input the two differ only by a trailing empty
    line, which the comment filter keeps and `json.loads` ignores.
  * Non-ASCII corner cases are out of modelled scope: `str.isdigit` is
    modelled on the decimal digits `0`-`9`, `str.strip` on ASCII
    whitespace, and `repr` escapes only the ASCII control characters.
  * Python floats are kept as their source lexeme (`PyVal.float`); no
    claim depends on float arithmetic.  A float literal is falsy exactly
    when its mantissa digits are all zero (underflow to `0.0` of tiny
    nonzero literals is not modelled).
  * A `\uXXXX` escape denoting a lone surrogate (unrepresentable in a
    Lean `Char`) decodes to U+FFFD.
-/

/-- A Python value, as produced by `json.loads` and manipulated by
`main.py`.  Strings are lists of characters; dicts are association lists
in insertion order (Python dicts preserve insertion order and `main.py`
iterates them with `.items()`). -/
inductive PyVal where
  | none  : PyVal
  | bool  : Bool → PyVal
  | int   : Int → PyVal
  | float : List Char → PyVal
  | str   : List Char → PyVal
  | list  : List PyVal → PyVal
  | dict  : List (List Char × PyVal) → PyVal

/-- A Python dict, as an insertion-ordered association list. -/
abbrev PyDict := List (List Char × PyVal)

/-- ASCII whitespace, as stripped by `str.strip()` and matched by the
regex class `\s`. -/
def isPySpace (c : Char) : Bool :=
  c == ' ' || c == '\t' || c == '\n' || c == '\r' || c == '\x0b' || c == '\x0c'

/-- Python `str.strip()` (ASCII whitespace). -/
def pyStrip (s : List Char) : List Char :=
  ((s.dropWhile isPySpace).reverse.dropWhile isPySpace).reverse

/-- Python `str.splitlines()`, modelled as splitting on `'\n'`. -/
def splitlines : List Char → List (List Char)
  | [] => [[]]
  | c :: rest =>
    if c = '\n' then [] :: splitlines rest
    else
      match splitlines rest with
      | l :: ls => (c :: l) :: ls
      | [] => [[c]]

/-- Python `"\n".join(lines)`. -/
def joinLines : List (List Char) → List Char
  | [] => []
  | [l] => l
  | l :: ls => l ++ '\n' :: joinLines ls

/-- Python `str.isdigit()` for ASCII text: non-empty and all decimal
digits. -/
def py_isdigit (s : List Char) : Bool :=
  !s.isEmpty && s.all Char.isDigit

/-- Is a float lexeme an exact zero literal (all mantissa digits `0`,
e.g. `0.0`, `-0.00e5`)?  `NaN` and `Infinity` have no digits and are not
zero. -/
def floatLexZero (lex : List Char) : Bool :=
  let mantissa := lex.takeWhile (fun c => c ≠ 'e' ∧ c ≠ 'E')
  let digits := mantissa.filter Char.isDigit
  !digits.isEmpty && digits.all (· = '0')

/-- Python truthiness (`bool(v)`), as tested by `if query`, `not query`,
`not response` in `main.py`. -/
def truthy : PyVal → Bool
  | .none => false
  | .bool b => b
  | .int i => decide (i ≠ 0)
  | .float lex => !floatLexZero lex
  | .str s => !s.isEmpty
  | .list l => !l.isEmpty
  | .dict d => !d.isEmpty

/-- Hexadecimal digit characters for `repr`'s `\xhh` escapes. -/
def hexChar (n : Nat) : Char :=
  if n < 10 then Char.ofNat ('0'.toNat + n)
  else Char.ofNat ('a'.toNat + (n - 10))

/-- Python `repr` of a string: picks `"` as the quote only when the
string contains `'` and no `"`, escapes the backslash, the chosen quote,
and ASCII control characters. -/
def repr_str (s : List Char) : List Char :=
  let q : Char := if s.contains '\'' && !(s.contains '"') then '"' else '\''
  let esc : Char → List Char := fun c =>
    if c = '\\' then ['\\', '\\']
    else if c = q then ['\\', q]
    else if c = '\n' then ['\\', 'n']
    else if c = '\r' then ['\\', 'r']
    else if c = '\t' then ['\\', 't']
    else if c.toNat < 32 || c.toNat = 127 then
      ['\\', 'x', hexChar (c.toNat / 16), hexChar (c.toNat % 16)]
    else [c]
  q :: (s.map esc).flatten ++ [q]

/-- Comma-space separated concatenation, as in Python container `repr`s. -/
def joinComma : List (List Char) → List Char
  | [] => []
  | [l] => l
  | l :: ls => l ++ american ls
where american (ls : List (List Char)) : List Char :=
  match ls with
  | [] => []
  | l :: ls => ',' :: ' ' :: l ++ american ls

/-- Python `repr(v)`. -/
def py_repr : PyVal → List Char
  | .none => "None".data
  | .bool true => "True".data
  | .bool false => "False".data
  | .int i => (toString i).data
  | .float lex => lex
  | .str s => repr_str s
  | .list xs =>
    '[' :: joinComma (xs.attach.map (fun x => py_repr x.1)) ++ [']']
  | .dict kvs =>
    '\x7b' :: joinComma (kvs.attach.map (fun kv =>
      repr_str kv.1.1 ++ ':' :: ' ' :: py_repr kv.1.2)) ++ ['\x7d']
termination_by v => sizeOf v
decreasing_by
  · have := List.sizeOf_lt_of_mem x.2
    simp only [PyVal.list.sizeOf_spec]
    omega
  · have h1 := List.sizeOf_lt_of_mem kv.2
    have h2 : sizeOf kv.1.2 < sizeOf kv.1 := by
      obtain ⟨a, b⟩ := kv.1
      simp only [Prod.mk.sizeOf_spec]
      omega
    simp only [PyVal.dict.sizeOf_spec]
    omega

/-- Python `str(v)`: the string itself for strings, `repr`-based
rendering otherwise (as used by `str(query)`, `str(v)`, `str(ctx)`,
`str(response)` in `main.py`). -/
def py_str : PyVal → List Char
  | .str s => s
  | v => py_repr v


/-! ### `json.loads`, modelled as a recursive-descent parser

JSON whitespace is exactly space, tab, newline, carriage return.  The
parser accepts what Python's `json.loads` accepts (including the default
non-strict constants `NaN`, `Infinity`, `-Infinity`), parses integer
literals to `PyVal.int` and keeps float literals as their lexeme, and
rejects trailing data.  Recursion into nested values is by a fuel
counter; `json_loads` supplies `length + 1`, which always suffices since
every recursive call consumes at least one character. -/

def isJsonWs (c : Char) : Bool :=
  c == ' ' || c == '\t' || c == '\n' || c == '\r'

def skipWs (cs : List Char) : List Char := cs.dropWhile isJsonWs

def hexVal (c : Char) : Option Nat :=
  if '0' ≤ c ∧ c ≤ '9' then some (c.toNat - '0'.toNat)
  else if 'a' ≤ c ∧ c ≤ 'f' then some (c.toNat - 'a'.toNat + 10)
  else if 'A' ≤ c ∧ c ≤ 'F' then some (c.toNat - 'A'.toNat + 10)
  else Option.none

/-- Parse exactly four hex digits (a `\uXXXX` escape's payload). -/
def parseHex4 : List Char → Option (Nat × List Char)
  | a :: b :: c :: d :: rest =>
    match hexVal a, hexVal b, hexVal c, hexVal d with
    | some x, some y, some z, some w => some (((x * 16 + y) * 16 + z) * 16 + w, rest)
    | _, _, _, _ => Option.none
  | _ => Option.none

/-- Parse the body of a JSON string (after the opening quote), handling
the escape sequences `json.loads` accepts and rejecting raw control
characters.  A `\uXXXX` high surrogate followed by a low surrogate forms
one character; a lone surrogate (legal in a Python `str` but not in a
Lean `Char`) becomes U+FFFD. -/
def parseJsonString (fuel : Nat) (cs : List Char) : Option (List Char × List Char) :=
  match fuel, cs with
  | _, [] => Option.none
  | 0, _ :: _ => Option.none
  | Nat.succ fuel, c :: rest =>
    if c = '"' then some ([], rest)
    else if c = '\\' then
      match rest with
      | [] => Option.none
      | e :: rest1 =>
        let simpleEsc : Option Char :=
          if e = '"' then some '"'
          else if e = '\\' then some '\\'
          else if e = '/' then some '/'
          else if e = 'b' then some '\x08'
          else if e = 'f' then some '\x0c'
          else if e = 'n' then some '\n'
          else if e = 'r' then some '\r'
          else if e = 't' then some '\t'
          else Option.none
        match simpleEsc with
        | some d =>
          (parseJsonString fuel rest1).map (fun p => (d :: p.1, p.2))
        | Option.none =>
          if e = 'u' then
            match parseHex4 rest1 with
            | Option.none => Option.none
            | some (n, rest2) =>
              if 0xd800 ≤ n ∧ n ≤ 0xdbff then
                -- possible surrogate pair
                match rest2 with
                | '\\' :: 'u' :: rest3 =>
                  match parseHex4 rest3 with
                  | some (m, rest4) =>
                    if 0xdc00 ≤ m ∧ m ≤ 0xdfff then
                      let code := 0x10000 + (n - 0xd800) * 0x400 + (m - 0xdc00)
                      (parseJsonString fuel rest4).map (fun p => (Char.ofNat code :: p.1, p.2))
                    else
                      (parseJsonString fuel rest2).map (fun p => ('\uFFFD' :: p.1, p.2))
                  | Option.none =>
                    (parseJsonString fuel rest2).map (fun p => ('\uFFFD' :: p.1, p.2))
                | _ =>
                  (parseJsonString fuel rest2).map (fun p => ('\uFFFD' :: p.1, p.2))
              else if 0xdc00 ≤ n ∧ n ≤ 0xdfff then
                (parseJsonString fuel rest2).map (fun p => ('\uFFFD' :: p.1, p.2))
              else
                (parseJsonString fuel rest2).map (fun p => (Char.ofNat n :: p.1, p.2))
          else Option.none
    else if c.toNat < 0x20 then Option.none
    else (parseJsonString fuel rest).map (fun p => (c :: p.1, p.2))

def digitsToNat (ds : List Char) : Nat :=
  ds.foldl (fun acc c => acc * 10 + (c.toNat - '0'.toNat)) 0

/-- Parse a JSON number at the head of the input.  Grammar:
`-? (0 | [1-9][0-9]*) (\.[0-9]+)? ([eE][+-]?[0-9]+)?`.  A plain integer
literal yields `PyVal.int`; anything with a fraction or exponent yields
`PyVal.float` holding the lexeme. -/
def parseJsonNumber (cs : List Char) : Option (PyVal × List Char) :=
  let (sign, cs1) : List Char × List Char :=
    match cs with
    | '-' :: rest => (['-'], rest)
    | _ => ([], cs)
  let intPart : Option (List Char × List Char) :=
    match cs1 with
    | '0' :: rest => some (['0'], rest)
    | c :: rest =>
      if '1' ≤ c ∧ c ≤ '9' then
        let (ds, r) := rest.span Char.isDigit
        some (c :: ds, r)
      else Option.none
    | [] => Option.none
  match intPart with
  | Option.none => Option.none
  | some (ip, cs2) =>
    let fracPart : Option (List Char × List Char) :=
      match cs2 with
      | '.' :: rest =>
        let (ds, r) := rest.span Char.isDigit
        if ds.isEmpty then Option.none else some ('.' :: ds, r)
      | _ => some ([], cs2)
    match fracPart with
    | Option.none => Option.none
    | some (fp, cs3) =>
      let expPart : Option (List Char × List Char) :=
        match cs3 with
        | e :: rest =>
          if e = 'e' ∨ e = 'E' then
            let (sgn, rest1) : List Char × List Char :=
              match rest with
              | '+' :: r => (['+'], r)
              | '-' :: r => (['-'], r)
              | _ => ([], rest)
            let (ds, r) := rest1.span Char.isDigit
            if ds.isEmpty then Option.none else some (e :: sgn ++ ds, r)
          else some ([], cs3)
        | [] => some ([], cs3)
      match expPart with
      | Option.none => Option.none
      | some (ep, cs4) =>
        if fp.isEmpty ∧ ep.isEmpty then
          let n : Int := Int.ofNat (digitsToNat ip)
          some (.int (if sign.isEmpty then n else -n), cs4)
        else
          some (.float (sign ++ ip ++ fp ++ ep), cs4)

/-- Build a Python dict by assigning `key := v` *before* the later
members `d` are assigned: if `key` recurs later, its value is the later
one (here: `d`'s), and its position is the earlier one (here: the
front).  This mirrors `dict` construction by `json.loads`. -/
def dictInsert (key : List Char) (v : PyVal) (d : PyDict) : PyDict :=
  if d.any (fun p => p.1 = key) then
    (key, (((d.find? (fun p => p.1 = key)).map Prod.snd).getD v)) ::
      d.filter (fun p => p.1 ≠ key)
  else (key, v) :: d

mutual

/-- Parse one JSON value (after skipping leading whitespace). -/
def parseJsonValue (fuel : Nat) (cs : List Char) : Option (PyVal × List Char) :=
  match fuel with
  | 0 => Option.none
  | Nat.succ fuel =>
    let cs := skipWs cs
    match cs with
    | [] => Option.none
    | c :: rest =>
      if c = '"' then
        (parseJsonString fuel rest).map (fun p => (.str p.1, p.2))
      else if c = '[' then
        let rest1 := skipWs rest
        match rest1 with
        | ']' :: rest2 => some (.list [], rest2)
        | _ =>
          (parseJsonElems fuel rest).map (fun p => (.list p.1, p.2))
      else if c = '\x7b' then
        let rest1 := skipWs rest
        match rest1 with
        | '\x7d' :: rest2 => some (.dict [], rest2)
        | _ =>
          (parseJsonMembers fuel rest).map (fun p => (.dict p.1, p.2))
      else if "null".data.isPrefixOf cs then some (.none, cs.drop 4)
      else if "true".data.isPrefixOf cs then some (.bool true, cs.drop 4)
      else if "false".data.isPrefixOf cs then some (.bool false, cs.drop 5)
      else if "NaN".data.isPrefixOf cs then some (.float "NaN".data, cs.drop 3)
      else if "Infinity".data.isPrefixOf cs then some (.float "Infinity".data, cs.drop 8)
      else if "-Infinity".data.isPrefixOf cs then some (.float "-Infinity".data, cs.drop 9)
      else parseJsonNumber cs

/-- Parse the comma-separated elements of a non-empty array, up to and
including the closing bracket. -/
def parseJsonElems (fuel : Nat) (cs : List Char) : Option (List PyVal × List Char) :=
  match fuel with
  | 0 => Option.none
  | Nat.succ fuel =>
    match parseJsonValue fuel cs with
    | Option.none => Option.none
    | some (v, rest) =>
      match skipWs rest with
      | ',' :: rest1 =>
        (parseJsonElems fuel rest1).map (fun p => (v :: p.1, p.2))
      | ']' :: rest1 => some ([v], rest1)
      | _ => Option.none

/-- Parse the comma-separated `"key": value` members of a non-empty
object, up to and including the closing brace.  A repeated key keeps the
first occurrence's position and the last occurrence's value, as a Python
dict built by repeated assignment does. -/
def parseJsonMembers (fuel : Nat) (cs : List Char) : Option (PyDict × List Char) :=
  match fuel with
  | 0 => Option.none
  | Nat.succ fuel =>
    match skipWs cs with
    | '"' :: rest =>
      match parseJsonString fuel rest with
      | Option.none => Option.none
      | some (key, rest1) =>
        match skipWs rest1 with
        | ':' :: rest2 =>
          match parseJsonValue fuel rest2 with
          | Option.none => Option.none
          | some (v, rest3) =>
            match skipWs rest3 with
            | ',' :: rest4 =>
              (parseJsonMembers fuel rest4).map (fun p => (dictInsert key v p.1, p.2))
            | '\x7d' :: rest4 => some ([(key, v)], rest4)
            | _ => Option.none
        | _ => Option.none
    | _ => Option.none

end

/-- Python `json.loads(s)`: parse one value, then require only
whitespace to remain. -/
def json_loads (cs : List Char) : Option PyVal :=
  match parseJsonValue (cs.length + 1) cs with
  | some (v, rest) => if (skipWs rest).isEmpty then some v else Option.none
  | Option.none => Option.none


/-! ### Strategy 1: comment-stripped strict parse (`main.py` lines 68-73) -/

/-- Keep a line unless its stripped form starts with `//`
(`line.strip().startswith("//")`). -/
def keepLine (l : List Char) : Bool :=
  !("//".data.isPrefixOf (pyStrip l))

/-- Strategy 1 of `load_robust_json`: drop comment lines, rejoin with
newlines, and strict-parse; `Option.none` is the swallowed
`json.JSONDecodeError`. -/
def strategy1 (content : List Char) : Option PyVal :=
  let clean_lines := (splitlines content).filter keepLine
  json_loads (joinLines clean_lines)


/-! ### Strategy 2: the regex scraper (`main.py` lines 78-101)

The two patterns
  `"(user_query|message|query|text|response|bot_response)":\s*"((?:[^"\\]|\\.)*)"`
and its single-quoted twin are modelled by a direct scanner.  `re.findall`
semantics: try a match at each position from the left; on success emit the
two groups and resume after the match (non-overlapping), on failure move
one character right.  Inside the value group, `[^"\\]` matches anything
but the quote and the backslash (including a newline), and `\\.` matches a
backslash followed by any character except a newline (`.` without
`DOTALL`); no alternative matches a backslash-newline, so a match fails
there. -/

/-- The role-key whitelist, in the pattern's alternation order. -/
def scrapeKeys : List (List Char) :=
  ["user_query".data, "message".data, "query".data, "text".data,
   "response".data, "bot_response".data]

/-- Match the key alternation literally at the head of the input,
returning the matched key and the remaining input.  (No whitelist key is
a prefix of another, and the alternation is followed by a closing quote,
so first-match order cannot differ from Python's leftmost-alternative
order.) -/
def matchKeyAlt : List (List Char) → List Char → Option (List Char × List Char)
  | [], _ => Option.none
  | k :: ks, cs =>
    if k.isPrefixOf cs then some (k, cs.drop k.length)
    else matchKeyAlt ks cs

/-- Match the value group `((?:[^"\]|\.)*)` followed by the closing
quote `q`: returns the raw group text (escapes still present) and the
input after the closing quote. -/
def scanValue (q : Char) : List Char → Option (List Char × List Char)
  | [] => Option.none
  | c :: rest =>
    if c = q then some ([], rest)
    else if c = '\\' then
      match rest with
      | [] => Option.none
      | d :: rest2 =>
        if d = '\n' then Option.none
        else (scanValue q rest2).map (fun p => (c :: d :: p.1, p.2))
    else (scanValue q rest).map (fun p => (c :: p.1, p.2))

/-- Attempt the whole pattern at the head of the input, for quote
character `q`: `q key q : \s* q value q`. -/
def tryMatch (q : Char) (cs : List Char) : Option ((List Char × List Char) × List Char) :=
  match cs with
  | [] => Option.none
  | c :: cs1 =>
    if c = q then
      match matchKeyAlt scrapeKeys cs1 with
      | Option.none => Option.none
      | some (k, cs2) =>
        match cs2 with
        | c2 :: c3 :: cs3 =>
          if c2 = q ∧ c3 = ':' then
            match cs3.dropWhile isPySpace with
            | c5 :: cs5 =>
              if c5 = q then
                (scanValue q cs5).map (fun p => ((k, p.1), p.2))
              else Option.none
            | [] => Option.none
          else Option.none
        | _ => Option.none
    else Option.none

/-- `re.findall` for one pattern: scan left to right, emitting
non-overlapping matches.  Fuel starts at the input length; every step
consumes at least one character, so it never runs out. -/
def findAllAux (q : Char) : Nat → List Char → List (List Char × List Char)
  | 0, _ => []
  | _, [] => []
  | Nat.succ fuel, c :: rest =>
    match tryMatch q (c :: rest) with
    | some (kv, rest1) => kv :: findAllAux q fuel rest1
    | Option.none => findAllAux q fuel rest

def findAll (q : Char) (cs : List Char) : List (List Char × List Char) :=
  findAllAux q cs.length cs


/-! ### `bytes.decode("unicode_escape")` (`main.py` line 90)

Total on escape-free ASCII text; `Option.none` models the
`UnicodeDecodeError`/`ValueError` the codec raises on a malformed or
unsupported escape (`\x` without two hex digits, `\u`/`\U` without their
digits, `\N`, a trailing backslash).  A known single-character escape is
decoded; an unrecognized escape keeps the backslash and the character,
as the codec does. -/

/-- Read up to `n` octal digits from the head of the input. -/
def takeOct (n : Nat) (cs : List Char) : Nat × List Char :=
  match n, cs with
  | 0, _ => (0, cs)
  | _, [] => (0, cs)
  | Nat.succ m, c :: rest =>
    if '0' ≤ c ∧ c ≤ '7' then
      let (v, r) := takeOct m rest
      -- most-significant digit first: fold as we go
      (v + (c.toNat - '0'.toNat) * 8 ^ (octLen m rest), r)
    else (0, cs)
where octLen (m : Nat) (cs : List Char) : Nat :=
  match m, cs with
  | 0, _ => 0
  | _, [] => 0
  | Nat.succ m', c :: rest => if '0' ≤ c ∧ c ≤ '7' then octLen m' rest + 1 else 0

/-- Read exactly `n` hex digits, or fail. -/
def takeHex (n : Nat) (cs : List Char) : Option (Nat × List Char) :=
  match n, cs with
  | 0, _ => some (0, cs)
  | Nat.succ _, [] => Option.none
  | Nat.succ m, c :: rest =>
    match hexVal c with
    | some h =>
      (takeHex m rest).map (fun p => (h * 16 ^ m + p.1, p.2))
    | Option.none => Option.none

/-- One step of `unicode_escape` decoding at a backslash: the decoded
characters and the rest of the input.  `e` is the character after the
backslash, `rest1` the input after `e`. -/
def decodeEscape (e : Char) (rest1 : List Char) : Option (List Char × List Char) :=
  if e = '\n' then some ([], rest1)          -- line continuation: removed
  else if e = '\\' then some (['\\'], rest1)
  else if e = '\'' then some (['\''], rest1)
  else if e = '"' then some (['"'], rest1)
  else if e = 'a' then some (['\x07'], rest1)
  else if e = 'b' then some (['\x08'], rest1)
  else if e = 'f' then some (['\x0c'], rest1)
  else if e = 'n' then some (['\n'], rest1)
  else if e = 'r' then some (['\r'], rest1)
  else if e = 't' then some (['\t'], rest1)
  else if e = 'v' then some (['\x0b'], rest1)
  else if '0' ≤ e ∧ e ≤ '7' then
    let (v, r) := takeOct 2 rest1
    some ([Char.ofNat ((e.toNat - '0'.toNat) * 8 ^ (takeOct.octLen 2 rest1) + v)], r)
  else if e = 'x' then
    (takeHex 2 rest1).map (fun p => ([Char.ofNat p.1], p.2))
  else if e = 'u' then
    (takeHex 4 rest1).map (fun p =>
      (if 0xd800 ≤ p.1 ∧ p.1 ≤ 0xdfff then (['�'], p.2) else ([Char.ofNat p.1], p.2)))
  else if e = 'U' then
    match takeHex 8 rest1 with
    | some (n, r) =>
      if n > 0x10ffff then Option.none
      else if 0xd800 ≤ n ∧ n ≤ 0xdfff then some (['�'], r)
      else some ([Char.ofNat n], r)
    | Option.none => Option.none
  else if e = 'N' then Option.none           -- \N not supported by the bytes codec
  else some (['\\', e], rest1)               -- unknown escape: kept verbatim

/-- `value.encode("utf-8").decode("unicode_escape")`.  Fuel starts at
`length + 1`; every step consumes at least one character. -/
def unicodeEscapeGo : Nat → List Char → Option (List Char)
  | _, [] => some []
  | 0, _ :: _ => Option.none
  | Nat.succ fuel, c :: rest =>
    if c = '\\' then
      match rest with
      | [] => Option.none                    -- backslash at end of input
      | e :: rest1 =>
        match decodeEscape e rest1 with
        | some (out, rest2) =>
          (unicodeEscapeGo fuel rest2).map (fun tl => out ++ tl)
        | Option.none => Option.none
    else
      (unicodeEscapeGo fuel rest).map (fun tl => c :: tl)

def unicode_escape (cs : List Char) : Option (List Char) :=
  unicodeEscapeGo (cs.length + 1) cs


/-! ### Salvage assembly and `load_robust_json` (`main.py` lines 58-105) -/

/-- The matches of both patterns over the raw content: all double-quoted
matches, then all single-quoted matches (`found_items`). -/
def found_items (content : List Char) : List (List Char × List Char) :=
  findAll '"' content ++ findAll '\'' content

/-- The salvage loop (`main.py` lines 89-94): unescape each match's
value, keep `{key: value}` fragments whose value is at least 2
characters and not all digits.  `Except.error` is a
`UnicodeDecodeError` escaping the loop (it is caught by the *outer*
`except` of `load_robust_json`, discarding everything). -/
def salvageGo : List (List Char × List Char) → Except Unit (List (List Char × List Char))
  | [] => .ok []
  | (key, value) :: rest =>
    match unicode_escape value with
    | Option.none => .error ()
    | some clean_val =>
      if clean_val.length < 2 || py_isdigit clean_val then salvageGo rest
      else
        match salvageGo rest with
        | .ok items => .ok ((key, clean_val) :: items)
        | .error e => .error e

/-- Strategy 2 of `load_robust_json`: the extracted `{key: value}`
fragments, or the decode error that aborts the whole load. -/
def salvage (content : List Char) : Except Unit (List (List Char × List Char)) :=
  salvageGo (found_items content)

/-- `load_robust_json` (`main.py` lines 58-105).  The argument is the
outcome of `open(...).read()`: `Option.none` when opening or reading
raised.  All exceptions — the read failure, a decode error inside the
salvage loop — are absorbed by the outer `except`, which returns `[]`;
a strict-parse failure is absorbed by the inner bare `except` and
triggers salvage; empty salvage returns `[]`. -/
def load_robust_json (file : Option (List Char)) : PyVal :=
  match file with
  | Option.none => .list []
  | some content =>
    match strategy1 content with
    | some v => v
    | Option.none =>
      match salvage content with
      | .error _ => .list []
      | .ok [] => .list []
      | .ok items => .list (items.map (fun kv => .dict [(kv.1, .str kv.2)]))


/-! ### `extract_list_from_data` (`main.py` lines 107-126) -/

/-- First-occurrence lookup (`data[key]` / `key in data` on a Python
dict, whose keys are unique). -/
def pyLookup? (d : PyDict) (key : List Char) : Option PyVal :=
  (d.find? (fun p => p.1 = key)).map Prod.snd

/-- `key in data`. -/
def hasKey (d : PyDict) (key : List Char) : Bool :=
  d.any (fun p => p.1 = key)

/-- `data.get(key)`: the stored value, or `None` when absent. -/
def pyGet (d : PyDict) (key : List Char) : PyVal :=
  (pyLookup? d key).getD .none

/-- The ordered candidate container keys (`possible_keys`). -/
def possible_keys : List (List Char) :=
  ["conversation_turns".data, "vector_data".data, "data".data,
   "chats".data, "context".data]

/-- The probe loop: first key that is present *and* list-valued wins; a
present non-list value does not stop the probe. -/
def probeKeys : List (List Char) → PyDict → Option (List PyVal)
  | [], _ => Option.none
  | k :: ks, d =>
    match pyLookup? d k with
    | some (.list l) => some l
    | _ => probeKeys ks d

/-- `extract_list_from_data`. -/
def extract_list_from_data : PyVal → List PyVal
  | .list l => l
  | .dict d =>
    match probeKeys possible_keys d with
    | some l => l
    | Option.none =>
      if hasKey d "message".data || hasKey d "text".data then [.dict d] else []
  | _ => []


/-! ### The field resolver (`main.py` lines 155-189) -/

def queryKeys : List (List Char) :=
  ["user_query".data, "message".data, "query".data, "text".data]

def responseKeys : List (List Char) :=
  ["bot_response".data, "response".data, "answer".data]

def contextKeys : List (List Char) :=
  ["text".data, "context".data, "chunks".data]

/-- Truthiness of the running `query`/`response` variable: Python `None`
(our `Option.none`) and falsy values test false. -/
def truthyOpt : Option PyVal → Bool
  | Option.none => false
  | some v => truthy v

/-- `chat.get('role') != 'AI/Chatbot'`: true unless the role value is
that exact string. -/
def roleOK (chat : PyDict) : Bool :=
  match pyGet chat "role".data with
  | .str s => decide (s ≠ "AI/Chatbot".data)
  | _ => true

/-- The shared shape of the query and response assignments inside the
key-search loop (`main.py` lines 160-165): walk the items in stored
order and assign `v` whenever the key is in `keys`, the running variable
is still falsy, and the guard `ok` holds (`ok` is the role filter for
the query, and constantly true for the response). -/
def key_scan (keys : List (List Char)) (ok : Bool) : PyDict → Option PyVal → Option PyVal
  | [], acc => acc
  | (k, v) :: rest, acc =>
    key_scan keys ok rest
      (if decide (k ∈ keys) && !truthyOpt acc && ok then some v else acc)

/-- The query after the key-search loop (before the fallback). -/
def query_scan (chat : PyDict) : Option PyVal :=
  key_scan queryKeys (roleOK chat) chat Option.none

/-- The query after the fallback
`if not query and 'message' in chat: query = chat['message']`. -/
def resolved_query (chat : PyDict) : Option PyVal :=
  let q := query_scan chat
  if !truthyOpt q && hasKey chat "message".data then
    some (pyGet chat "message".data)
  else q

/-- The response after the key-search loop. -/
def response_scan (chat : PyDict) : Option PyVal :=
  key_scan responseKeys true chat Option.none

def GeneratedResponse : List Char := "Generated Response".data

/-- The response string handed to the evaluator:
`if not response: response = "Generated Response"` followed by
`str(response)`. -/
def forwarded_response (chat : PyDict) : List Char :=
  match response_scan chat with
  | some r => if truthy r then py_str r else GeneratedResponse
  | Option.none => GeneratedResponse

def ContextNotFound : List Char := "Context Not Found".data

/-- The context loop (`main.py` lines 171-176): every matching key
overwrites `context_text`, so the last match wins. -/
def ctx_scan : PyDict → List Char → List Char
  | [], acc => acc
  | (k, v) :: rest, acc =>
    ctx_scan rest (if decide (k ∈ contextKeys) then py_str v else acc)

/-- `context_text` for one context item. -/
def resolve_context : PyVal → List Char
  | .dict items => ctx_scan items ContextNotFound
  | v => py_str v

/-- The arguments of one `evaluator.evaluate_response` call:
`(query, context, response)` as passed at `main.py` lines 185-189. -/
abbrev EvalCall := PyVal × List Char × List Char

/-- One iteration of the pair loop for a chat *dict*: resolve the
fields, then call the evaluator only behind the acceptance gate
`if query and len(str(query)) > 5`.  `Option.none` is a silently skipped
pair. -/
def resolve_pair (chat : PyDict) (ctx : PyVal) : Option EvalCall :=
  match resolved_query chat with
  | some q =>
    if truthy q && decide ((py_str q).length > 5) then
      some (q, resolve_context ctx, forwarded_response chat)
    else Option.none
  | Option.none => Option.none

/-- The pair loop (`main.py` lines 147-193) over the zipped prefix
`range(min(len, len))`.  A non-dict chat item makes `chat.items()` raise
`AttributeError`, which nothing catches: the whole run fails
(`Except.error`). -/
def run_pairs_go : List (PyVal × PyVal) → Except Unit (List (Option EvalCall))
  | [] => .ok []
  | (c, x) :: rest =>
    match c with
    | .dict items =>
      match run_pairs_go rest with
      | .ok rs => .ok (resolve_pair items x :: rs)
      | .error e => .error e
    | _ => .error ()

def run_pairs (chat_list context_list : List PyVal) : Except Unit (List (Option EvalCall)) :=
  run_pairs_go (chat_list.zip context_list)

/-- The per-pair result as a total function of the zipped pair, used to
state what `run_pairs` produces when no pair raises. -/
def pair_result (p : PyVal × PyVal) : Option EvalCall :=
  match p.1 with
  | .dict items => resolve_pair items p.2
  | _ => Option.none

/-- The driver's guard `chats_data is not None and ...` on one side. -/
def isNotNone : PyVal → Bool
  | .none => false
  | _ => true


/-- Is a stored value a list? (`isinstance(v, list)`). -/
def isListV : PyVal → Bool
  | .list _ => true
  | _ => false

/-- Is a stored value a dict? (`isinstance(v, dict)` / has `.items()`). -/
def isDictV : PyVal → Bool
  | .dict _ => true
  | _ => false

/-- Does an `Option PyVal` hold a list? (`key in data and
isinstance(data[key], list)` combined). -/
def isListOpt : Option PyVal → Bool
  | some (.list _) => true
  | _ => false

theorem isDictV_eq_true {v : PyVal} (h : isDictV v = true) : ∃ items, v = .dict items := by
  cases v with
  | dict d => exact ⟨d, rfl⟩
  | none => simp [isDictV] at h
  | bool b => simp [isDictV] at h
  | int i => simp [isDictV] at h
  | float f => simp [isDictV] at h
  | str s => simp [isDictV] at h
  | list l => simp [isDictV] at h

/-! ### Helper lemmas -/

theorem key_scan_append (keys : List (List Char)) (ok : Bool) (l1 l2 : PyDict)
    (acc : Option PyVal) :
    key_scan keys ok (l1 ++ l2) acc = key_scan keys ok l2 (key_scan keys ok l1 acc) := by
  induction l1 generalizing acc with
  | nil => rfl
  | cons p rest ih =>
    obtain ⟨k, v⟩ := p
    simp only [List.cons_append, key_scan]
    exact ih _

theorem key_scan_ok_false (keys : List (List Char)) (l : PyDict) (acc : Option PyVal) :
    key_scan keys false l acc = acc := by
  induction l generalizing acc with
  | nil => rfl
  | cons p rest ih =>
    obtain ⟨k, v⟩ := p
    simp only [key_scan, Bool.and_false, if_false]
    exact ih acc

theorem key_scan_truthy (keys : List (List Char)) (ok : Bool) (l : PyDict)
    (acc : Option PyVal) (h : truthyOpt acc = true) :
    key_scan keys ok l acc = acc := by
  induction l with
  | nil => rfl
  | cons p rest ih =>
    obtain ⟨k, v⟩ := p
    simp only [key_scan, h, Bool.not_true, Bool.and_false, Bool.false_and, if_false]
    exact ih

theorem key_scan_no_match (keys : List (List Char)) (ok : Bool) (l : PyDict)
    (acc : Option PyVal) (h : ∀ p ∈ l, p.1 ∉ keys) :
    key_scan keys ok l acc = acc := by
  induction l generalizing acc with
  | nil => rfl
  | cons p rest ih =>
    obtain ⟨k, v⟩ := p
    have hk : k ∉ keys := h (k, v) (List.mem_cons_self _ _)
    simp only [key_scan, decide_eq_false hk, Bool.false_and, if_false]
    exact ih acc (fun p hp => h p (List.mem_cons_of_mem _ hp))

theorem key_scan_falsy (keys : List (List Char)) (ok : Bool) (l : PyDict)
    (acc : Option PyVal) (hacc : truthyOpt acc = false)
    (h : ∀ p ∈ l, p.1 ∈ keys → truthy p.2 = false) :
    truthyOpt (key_scan keys ok l acc) = false := by
  induction l generalizing acc with
  | nil => exact hacc
  | cons p rest ih =>
    obtain ⟨k, v⟩ := p
    simp only [key_scan]
    split
    · rename_i hcond
      have hk : k ∈ keys := by
        have := (Bool.and_eq_true ..).mp ((Bool.and_eq_true ..).mp hcond).1
        exact of_decide_eq_true this.1
      exact ih (some v) (h (k, v) (List.mem_cons_self _ _) hk)
        (fun p hp => h p (List.mem_cons_of_mem _ hp))
    · exact ih acc hacc (fun p hp => h p (List.mem_cons_of_mem _ hp))

theorem ctx_scan_append (l1 l2 : PyDict) (acc : List Char) :
    ctx_scan (l1 ++ l2) acc = ctx_scan l2 (ctx_scan l1 acc) := by
  induction l1 generalizing acc with
  | nil => rfl
  | cons p rest ih =>
    obtain ⟨k, v⟩ := p
    simp only [List.cons_append, ctx_scan]
    exact ih _

theorem ctx_scan_no_match (l : PyDict) (acc : List Char)
    (h : ∀ p ∈ l, p.1 ∉ contextKeys) :
    ctx_scan l acc = acc := by
  induction l generalizing acc with
  | nil => rfl
  | cons p rest ih =>
    obtain ⟨k, v⟩ := p
    have hk : k ∉ contextKeys := h (k, v) (List.mem_cons_self _ _)
    simp only [ctx_scan, decide_eq_false hk, if_false]
    exact ih acc (fun p hp => h p (List.mem_cons_of_mem _ hp))

theorem probeKeys_skip (pre rest : List (List Char)) (d : PyDict)
    (h : ∀ k ∈ pre, isListOpt (pyLookup? d k) = false) :
    probeKeys (pre ++ rest) d = probeKeys rest d := by
  induction pre with
  | nil => rfl
  | cons k ks ih =>
    have hk : isListOpt (pyLookup? d k) = false := h k (List.mem_cons_self _ _)
    simp only [List.cons_append, probeKeys]
    have htl : probeKeys (ks ++ rest) d = probeKeys rest d :=
      ih (fun k' hk' => h k' (List.mem_cons_of_mem _ hk'))
    rcases ho : pyLookup? d k with _ | v
    · exact htl
    · cases v with
      | list l => rw [ho] at hk; simp [isListOpt] at hk
      | none => exact htl
      | bool b => exact htl
      | int i => exact htl
      | float f => exact htl
      | str s => exact htl
      | dict dd => exact htl

theorem probeKeys_none (ks : List (List Char)) (d : PyDict)
    (h : ∀ k ∈ ks, isListOpt (pyLookup? d k) = false) :
    probeKeys ks d = Option.none := by
  have := probeKeys_skip ks [] d h
  simpa using this

theorem matchKeyAlt_mem (ks : List (List Char)) (cs k r : List Char)
    (h : matchKeyAlt ks cs = some (k, r)) : k ∈ ks := by
  induction ks with
  | nil => simp [matchKeyAlt] at h
  | cons a as ih =>
    simp only [matchKeyAlt] at h
    split at h
    · obtain ⟨h1, h2⟩ := Prod.mk.injEq .. ▸ Option.some.inj h
      exact h1 ▸ List.mem_cons_self _ _
    · exact List.mem_cons_of_mem _ (ih h)

theorem tryMatch_key_mem (q : Char) (cs : List Char) (k v r : List Char)
    (h : tryMatch q cs = some ((k, v), r)) : k ∈ scrapeKeys := by
  cases cs with
  | nil => simp [tryMatch] at h
  | cons c cs1 =>
    simp only [tryMatch] at h
    split at h
    · rcases hm : matchKeyAlt scrapeKeys cs1 with _ | ⟨k', cs2⟩
      · rw [hm] at h; simp at h
      · rw [hm] at h
        rcases cs2 with _ | ⟨c2, _ | ⟨c3, cs3⟩⟩
        · simp at h
        · simp at h
        · simp only at h
          split at h
          · split at h
            · split at h
              · rcases hs : scanValue q _ with _ | p
                · rw [hs] at h; simp at h
                · rw [hs] at h
                  simp only [Option.map_some'] at h
                  have hk : k' = k := congrArg (fun x => x.1.1) (Option.some.inj h)
                  exact hk ▸ matchKeyAlt_mem _ _ _ _ hm
              · simp at h
            · simp at h
          · simp at h
    · simp at h

theorem findAllAux_key_mem (q : Char) (fuel : Nat) (cs : List Char)
    (kv : List Char × List Char) (h : kv ∈ findAllAux q fuel cs) :
    kv.1 ∈ scrapeKeys := by
  induction fuel generalizing cs with
  | zero => simp [findAllAux] at h
  | succ fuel ih =>
    cases cs with
    | nil => simp [findAllAux] at h
    | cons c rest =>
      simp only [findAllAux] at h
      rcases hm : tryMatch q (c :: rest) with _ | ⟨⟨k', v'⟩, rest1⟩
      · rw [hm] at h
        exact ih rest h
      · rw [hm] at h
        rcases List.mem_cons.mp h with heq | htl
        · subst heq
          exact tryMatch_key_mem q (c :: rest) k' v' rest1 hm
        · exact ih rest1 htl

theorem found_items_key_mem (content : List Char) (kv : List Char × List Char)
    (h : kv ∈ found_items content) : kv.1 ∈ scrapeKeys := by
  rcases List.mem_append.mp h with h1 | h1
  · exact findAllAux_key_mem _ _ _ _ h1
  · exact findAllAux_key_mem _ _ _ _ h1

theorem salvageGo_ok_mem (pairs : List (List Char × List Char))
    (items : List (List Char × List Char)) (h : salvageGo pairs = .ok items) :
    ∀ kv ∈ items, (∃ raw, (kv.1, raw) ∈ pairs) ∧ 2 ≤ kv.2.length ∧
      py_isdigit kv.2 = false := by
  induction pairs generalizing items with
  | nil =>
    cases h
    simp
  | cons p rest ih =>
    obtain ⟨key, value⟩ := p
    simp only [salvageGo] at h
    split at h
    · cases h
    · rename_i cv hcv
      by_cases hcond : (decide (cv.length < 2) || py_isdigit cv) = true
      · rw [if_pos hcond] at h
        intro kv hkv
        obtain ⟨⟨raw, hraw⟩, h2, h3⟩ := ih items h kv hkv
        exact ⟨⟨raw, List.mem_cons_of_mem _ hraw⟩, h2, h3⟩
      · rw [if_neg hcond] at h
        split at h
        · rename_i items' hrest
          cases h
          intro kv hkv
          rcases List.mem_cons.mp hkv with heq | htl
          · subst heq
            have hb : (decide (cv.length < 2) || py_isdigit cv) = false :=
              Bool.eq_false_iff.mpr hcond
            obtain ⟨hb1, hb2⟩ := Bool.or_eq_false_iff.mp hb
            have hlen : ¬ (cv.length < 2) := of_decide_eq_false hb1
            exact ⟨⟨value, List.mem_cons_self _ _⟩, by show 2 ≤ cv.length; omega, hb2⟩
          · obtain ⟨⟨raw, hraw⟩, h2, h3⟩ := ih items' hrest kv htl
            exact ⟨⟨raw, List.mem_cons_of_mem _ hraw⟩, h2, h3⟩
        · cases h

theorem run_pairs_go_ok (L : List (PyVal × PyVal))
    (h : ∀ p ∈ L, isDictV p.1 = true) :
    run_pairs_go L = .ok (L.map pair_result) := by
  induction L with
  | nil => rfl
  | cons p rest ih =>
    obtain ⟨c, x⟩ := p
    obtain ⟨items, rfl⟩ := isDictV_eq_true (h (c, x) (List.mem_cons_self _ _))
    have htl := ih (fun q hq => h q (List.mem_cons_of_mem _ hq))
    simp only [run_pairs_go, htl, List.map, pair_result]

/-! ### The claims -/

/-- C1: `load_robust_json` never propagates a raised exception: it is a
total function of the read outcome (first conjunct: it always returns a
value); a file-read failure returns the empty list (second conjunct);
when strict parsing failed and salvage found nothing the result is the
empty list (third conjunct); and even a `UnicodeDecodeError` escaping
the salvage loop is absorbed by the outer handler into the empty list
(fourth conjunct). -/
theorem c1_parser_never_raises :
    (∀ file, ∃ v, load_robust_json file = v)
    ∧ load_robust_json Option.none = .list []
    ∧ (∀ content, strategy1 content = Option.none → salvage content = .ok [] →
        load_robust_json (some content) = .list [])
    ∧ (∀ content, strategy1 content = Option.none → salvage content = .error () →
        load_robust_json (some content) = .list []) := by
  refine ⟨fun file => ⟨_, rfl⟩, rfl, ?_, ?_⟩
  · intro content h1 h2
    simp only [load_robust_json, h1, h2]
  · intro content h1 h2
    simp only [load_robust_json, h1, h2]

/-- Witness for C1 at the unsalvageable content `@@@@`: strict parsing
fails, salvage finds nothing, and the loader returns the empty list. -/
theorem c1_witness :
    strategy1 "@@@@".data = Option.none ∧ salvage "@@@@".data = .ok [] ∧
      load_robust_json (some "@@@@".data) = .list [] :=
  ⟨rfl, rfl, c1_parser_never_raises.2.2.1 "@@@@".data rfl rfl⟩

/-- C2 counterexample: the first pair whose key is in the query-key set
holds the empty string (and no `role` key is present, so the role filter
passes), yet the code does not accept that first value: the guard at the
assignment is `not query` — truthiness, not presence — so the later
`query: "hello!"` pair overwrites the falsy first match. -/
theorem c2_counterexample :
    ([("text".data, PyVal.str []),
      ("query".data, PyVal.str "hello!".data)] : PyDict).head? =
        some ("text".data, PyVal.str []) ∧
    "text".data ∈ queryKeys ∧
    roleOK [("text".data, PyVal.str []),
        ("query".data, PyVal.str "hello!".data)] = true ∧
    query_scan [("text".data, PyVal.str []),
        ("query".data, PyVal.str "hello!".data)] ≠ some (PyVal.str []) ∧
    query_scan [("text".data, PyVal.str []),
        ("query".data, PyVal.str "hello!".data)] =
      some (PyVal.str "hello!".data) := by
  refine ⟨rfl, by decide, rfl, ?_, rfl⟩
  intro h
  have := Option.some.inj h
  injection this with h2
  exact absurd h2 (by decide)

/-- C2 (amended): query resolution.  (1) When the item's role is the
literal `AI/Chatbot`, the keyed search accepts nothing.  (2) Otherwise
the first *truthy* value whose key is in the query-key set is accepted —
the guard at the assignment is `not query` (truthiness), so while only
falsy values have matched, later matches keep overwriting.  (3) When the
keyed search left the query falsy and a `message` key exists, the
fallback supplies `chat['message']` regardless of role — in particular
for a `role: AI/Chatbot` item with a `message` key, by (1) and (3)
together.  (4) The fallback does not fire once a truthy query was
accepted. -/
theorem c2_query_resolution (chat : PyDict) :
    (roleOK chat = false → query_scan chat = Option.none)
    ∧ (∀ pre k v post, chat = pre ++ (k, v) :: post → k ∈ queryKeys →
        truthy v = true → (∀ p ∈ pre, p.1 ∈ queryKeys → truthy p.2 = false) →
        roleOK chat = true → query_scan chat = some v)
    ∧ (truthyOpt (query_scan chat) = false → hasKey chat "message".data = true →
        resolved_query chat = some (pyGet chat "message".data))
    ∧ (truthyOpt (query_scan chat) = true → resolved_query chat = query_scan chat) := by
  refine ⟨?_, ?_, ?_, ?_⟩
  · intro h
    unfold query_scan
    rw [h]
    exact key_scan_ok_false _ _ _
  · intro pre k v post hchat hk hv hpre hrole
    unfold query_scan
    rw [hrole]
    conv_lhs => rw [hchat]
    rw [key_scan_append]
    have hacc : truthyOpt (key_scan queryKeys true pre Option.none) = false :=
      key_scan_falsy _ _ _ _ rfl hpre
    simp only [key_scan, hacc, Bool.not_false, Bool.and_true,
      decide_eq_true hk, Bool.true_and, if_true]
    exact key_scan_truthy _ _ _ _ (by simp [truthyOpt, hv])
  · intro h1 h2
    simp only [resolved_query, h1, h2, Bool.not_false, Bool.true_and, if_true]
  · intro h1
    simp only [resolved_query, h1, Bool.not_true, Bool.false_and]
    rfl

/-- Witness for C2 (amended): a `role: AI/Chatbot` item where the keyed
search is suppressed but the `message` fallback still supplies the
query, and a plain item where the first (truthy) query-key match
wins. -/
theorem c2_witness :
    query_scan [("role".data, .str "AI/Chatbot".data),
                ("message".data, .str "hello there".data)] = Option.none ∧
    resolved_query [("role".data, .str "AI/Chatbot".data),
                ("message".data, .str "hello there".data)] =
      some (pyGet [("role".data, .str "AI/Chatbot".data),
                ("message".data, .str "hello there".data)] "message".data) ∧
    query_scan [("query".data, .str "hi all".data)] = some (.str "hi all".data) := by
  refine ⟨?_, ?_, ?_⟩
  · exact (c2_query_resolution _).1 rfl
  · exact (c2_query_resolution _).2.2.1 rfl rfl
  · exact (c2_query_resolution _).2.1 [] "query".data (.str "hi all".data) []
      rfl (by decide) rfl (by simp) rfl

/-- C3: the evaluation oracle is invoked on a pair exactly when the
resolved query is truthy and its string representation is longer than 5
characters; otherwise the pair is skipped silently (the iteration result
is `Option.none`, not an error). -/
theorem c3_acceptance_gate (chat : PyDict) (ctx : PyVal) :
    (∃ t, resolve_pair chat ctx = some t) ↔
      ∃ q, resolved_query chat = some q ∧ truthy q = true ∧ (py_str q).length > 5 := by
  unfold resolve_pair
  cases h : resolved_query chat with
  | none => simp
  | some q =>
    by_cases h1 : truthy q
    · by_cases h2 : (py_str q).length > 5
      · simp [h1, h2]
      · simp [h1, h2]
    · simp [h1]

/-- C4: every fragment emitted by salvage has a whitelisted key, an
unescaped value at least 2 characters long that is not all digits; and
on the malformed input `"query": "What is 2+2?", "id": "42"` the loader
returns exactly the one `query` fragment, the digit-only `"42"` being
discarded. -/
theorem c4_salvage_filter :
    (∀ content items, salvage content = .ok items → ∀ kv ∈ items,
        kv.1 ∈ scrapeKeys ∧ 2 ≤ kv.2.length ∧ py_isdigit kv.2 = false)
    ∧ load_robust_json (some "\"query\": \"What is 2+2?\", \"id\": \"42\"".data) =
        .list [.dict [("query".data, .str "What is 2+2?".data)]] := by
  constructor
  · intro content items h kv hkv
    obtain ⟨⟨raw, hraw⟩, h2, h3⟩ := salvageGo_ok_mem _ _ h kv hkv
    exact ⟨found_items_key_mem content (kv.1, raw) hraw, h2, h3⟩
  · rfl

/-- Witness for C4, instantiating the filter property at the scenario
input's salvage output. -/
theorem c4_witness :
    "query".data ∈ scrapeKeys ∧ 2 ≤ "What is 2+2?".data.length ∧
      py_isdigit "What is 2+2?".data = false :=
  c4_salvage_filter.1 "\"query\": \"What is 2+2?\", \"id\": \"42\"".data
    [("query".data, "What is 2+2?".data)] rfl
    ("query".data, "What is 2+2?".data) (by simp)

/-- C6: context resolution.  (1) For a mapping, the last pair whose key
is in the context-key set wins, stringified.  (2) With no matching key
the sentinel `Context Not Found` is kept.  (3) A non-mapping context
item is stringified directly. -/
theorem c6_context_resolution :
    (∀ items pre k v post, items = pre ++ (k, v) :: post → k ∈ contextKeys →
        (∀ p ∈ post, p.1 ∉ contextKeys) →
        resolve_context (.dict items) = py_str v)
    ∧ (∀ items, (∀ p ∈ items, p.1 ∉ contextKeys) →
        resolve_context (.dict items) = ContextNotFound)
    ∧ (∀ w, isDictV w = false → resolve_context w = py_str w) := by
  refine ⟨?_, ?_, ?_⟩
  · intro items pre k v post hitems hk hpost
    simp only [resolve_context]
    rw [hitems, ctx_scan_append]
    simp only [ctx_scan, decide_eq_true hk, if_true]
    exact ctx_scan_no_match _ _ hpost
  · intro items h
    simp only [resolve_context]
    exact ctx_scan_no_match _ _ h
  · intro w hw
    cases w with
    | dict d => simp [isDictV] at hw
    | none => rfl
    | bool b => rfl
    | int i => rfl
    | float f => rfl
    | str s => rfl
    | list l => rfl

/-- Witness for C6: the later `text` key overwrites nothing after it,
a keyless mapping keeps the sentinel, and a bare string context is used
directly. -/
theorem c6_witness :
    resolve_context (.dict [("id".data, .int 7),
        ("text".data, .str "weather context".data)]) =
      py_str (.str "weather context".data) ∧
    resolve_context (.dict [("id".data, .int 7)]) = ContextNotFound ∧
    resolve_context (.str "plain ctx".data) = py_str (.str "plain ctx".data) := by
  refine ⟨?_, ?_, ?_⟩
  · exact (c6_context_resolution).1 _ [("id".data, .int 7)] "text".data
      (.str "weather context".data) [] rfl (by decide) (by simp)
  · exact (c6_context_resolution).2.1 _ (by decide)
  · exact (c6_context_resolution).2.2 _ rfl

/-- C7 counterexample: the first pair whose key is in the response-key
set holds the empty string; the claim's first-match-wins rule would
resolve the response to that first value, but because the loop's guard
is `not response` (truthiness, not mere presence), the later
`response: "hi there"` pair overwrites it. -/
theorem c7_counterexample :
    ("answer".data, PyVal.str []) ∈
        ([("answer".data, PyVal.str []),
          ("response".data, PyVal.str "hi there".data)] : PyDict) ∧
    "answer".data ∈ responseKeys ∧
    response_scan [("answer".data, PyVal.str []),
        ("response".data, PyVal.str "hi there".data)] ≠ some (PyVal.str []) ∧
    response_scan [("answer".data, PyVal.str []),
        ("response".data, PyVal.str "hi there".data)] =
      some (PyVal.str "hi there".data) := by
  refine ⟨by simp, by decide, ?_, rfl⟩
  intro h
  have := Option.some.inj h
  injection this with h2
  exact absurd h2 (by decide)

/-- C7 (amended): response resolution returns the first *truthy* value
whose key is in `{bot_response, response, answer}` — while only falsy
values have matched, later matches keep overwriting — independently of
the query search and of role filtering; when no key matches, or the
final match is falsy, the forwarded response is the placeholder
`Generated Response`, and a truthy resolved response is forwarded
stringified. -/
theorem c7_response_resolution (chat : PyDict) :
    (∀ pre k v post, chat = pre ++ (k, v) :: post → k ∈ responseKeys →
        truthy v = true → (∀ p ∈ pre, p.1 ∈ responseKeys → truthy p.2 = false) →
        response_scan chat = some v)
    ∧ ((∀ p ∈ chat, p.1 ∉ responseKeys) → response_scan chat = Option.none)
    ∧ (response_scan chat = Option.none →
        forwarded_response chat = GeneratedResponse)
    ∧ (∀ r, response_scan chat = some r → truthy r = false →
        forwarded_response chat = GeneratedResponse)
    ∧ (∀ r, response_scan chat = some r → truthy r = true →
        forwarded_response chat = py_str r) := by
  refine ⟨?_, ?_, ?_, ?_, ?_⟩
  · intro pre k v post hchat hk hv hpre
    unfold response_scan
    conv_lhs => rw [hchat]
    rw [key_scan_append]
    have hacc : truthyOpt (key_scan responseKeys true pre Option.none) = false :=
      key_scan_falsy _ _ _ _ rfl hpre
    simp only [key_scan, hacc, Bool.not_false, Bool.and_true,
      decide_eq_true hk, Bool.true_and, if_true]
    exact key_scan_truthy _ _ _ _ (by simp [truthyOpt, hv])
  · intro h
    unfold response_scan
    exact key_scan_no_match _ _ _ _ h
  · intro h
    simp only [forwarded_response, h]
  · intro r h hr
    simp only [forwarded_response, h, hr]
    rfl
  · intro r h hr
    simp only [forwarded_response, h, hr, if_true]

/-- Witness for C7 (amended), on the counterexample item itself: the
falsy first match is overwritten, and the truthy final response is
forwarded stringified. -/
theorem c7_witness :
    response_scan [("answer".data, PyVal.str []),
        ("response".data, PyVal.str "hi there".data)] =
      some (PyVal.str "hi there".data) ∧
    forwarded_response [("answer".data, PyVal.str []),
        ("response".data, PyVal.str "hi there".data)] =
      py_str (PyVal.str "hi there".data) := by
  have h := c7_response_resolution [("answer".data, PyVal.str []),
      ("response".data, PyVal.str "hi there".data)]
  have h1 := h.1 [("answer".data, PyVal.str [])] "response".data
    (PyVal.str "hi there".data) [] rfl (by decide) rfl (by decide)
  exact ⟨h1, h.2.2.2.2 _ h1 rfl⟩

/-- C8: the shape normalizer returns a list unchanged; on a mapping it
probes the candidate container keys in their fixed order and returns the
first present, list-valued one; failing that, a mapping with a `message`
or `text` key is wrapped as a one-element list; anything else yields the
empty list. -/
theorem c8_extract_list :
    (∀ l, extract_list_from_data (.list l) = l)
    ∧ (∀ d pre k post l, possible_keys = pre ++ k :: post →
        pyLookup? d k = some (.list l) →
        (∀ k' ∈ pre, isListOpt (pyLookup? d k') = false) →
        extract_list_from_data (.dict d) = l)
    ∧ (∀ d, (∀ k ∈ possible_keys, isListOpt (pyLookup? d k) = false) →
        (hasKey d "message".data || hasKey d "text".data) = true →
        extract_list_from_data (.dict d) = [.dict d])
    ∧ (∀ d, (∀ k ∈ possible_keys, isListOpt (pyLookup? d k) = false) →
        (hasKey d "message".data || hasKey d "text".data) = false →
        extract_list_from_data (.dict d) = [])
    ∧ (∀ w, isListV w = false → isDictV w = false → extract_list_from_data w = []) := by
  refine ⟨fun l => rfl, ?_, ?_, ?_, ?_⟩
  · intro d pre k post l hkeys hlook hpre
    simp only [extract_list_from_data]
    rw [hkeys, probeKeys_skip _ _ _ hpre]
    simp only [probeKeys, hlook]
  · intro d hprobe hkey
    simp only [extract_list_from_data, probeKeys_none _ _ hprobe, hkey, if_true]
  · intro d hprobe hkey
    simp only [extract_list_from_data, probeKeys_none _ _ hprobe, hkey]
    rfl
  · intro w hl hd
    cases w with
    | list l => simp [isListV] at hl
    | dict d => simp [isDictV] at hd
    | none => rfl
    | bool b => rfl
    | int i => rfl
    | float f => rfl
    | str s => rfl

/-- Witness for C8: the `data` key (present and list-valued, with the
two earlier candidates absent) is unwrapped; a `message`-keyed mapping
is wrapped; a scalar yields the empty list. -/
theorem c8_witness :
    extract_list_from_data (.dict [("data".data, .list [.int 1])]) = [.int 1] ∧
    extract_list_from_data (.dict [("message".data, .str "m".data)]) =
      [.dict [("message".data, .str "m".data)]] ∧
    extract_list_from_data (.int 0) = [] := by
  refine ⟨?_, ?_, ?_⟩
  · exact c8_extract_list.2.1 _ ["conversation_turns".data, "vector_data".data]
      "data".data ["chats".data, "context".data] [.int 1] rfl rfl (by decide)
  · exact c8_extract_list.2.2.1 _ (by decide) (by decide)
  · exact c8_extract_list.2.2.2.2 _ rfl rfl

/-- C9 counterexample: with one (non-mapping) chat item and one context
item, `min` of the lengths is 1, yet the driver does not silently
process one pair — `chat.items()` raises `AttributeError`, modelled by
the loop returning an error. -/
theorem c9_counterexample :
    min ([PyVal.str "hello".data] : List PyVal).length
        ([PyVal.str "ctx".data] : List PyVal).length = 1 ∧
    run_pairs [PyVal.str "hello".data] [PyVal.str "ctx".data] = .error () :=
  ⟨rfl, rfl⟩

/-- C9 (amended): provided every zipped chat item is a mapping, the
driver processes exactly `min(len(chat_list), len(context_list))` pairs,
pairing the items index by index in increasing order, and surplus items
on the longer side are silently ignored; a non-mapping chat item instead
raises out of the loop. -/
theorem c9_pair_loop (chat_list context_list : List PyVal)
    (h : ∀ p ∈ chat_list.zip context_list, isDictV p.1 = true) :
    run_pairs chat_list context_list =
      .ok ((chat_list.zip context_list).map pair_result) ∧
    ((chat_list.zip context_list).map pair_result).length =
      min chat_list.length context_list.length := by
  refine ⟨run_pairs_go_ok _ h, ?_⟩
  rw [List.length_map, List.length_zip]

/-- Witness for C9 (amended) on a one-pair batch. -/
theorem c9_witness :
    run_pairs [PyVal.dict [("message".data, PyVal.str "hello there".data)]]
        [PyVal.str "ctxinfo".data] =
      .ok (([PyVal.dict [("message".data, PyVal.str "hello there".data)]].zip
          [PyVal.str "ctxinfo".data]).map pair_result) ∧
    (([PyVal.dict [("message".data, PyVal.str "hello there".data)]].zip
        [PyVal.str "ctxinfo".data]).map pair_result).length = min 1 1 :=
  c9_pair_loop _ _ (by decide)

/-- C10 counterexample: a file whose content is the literal `null`
strict-parses to Python `None`, so `load_robust_json` *can* return
`None` and the driver's `is not None` guard is then false — the
"Could not load data" branch is reachable. -/
theorem c10_counterexample :
    load_robust_json (some "null".data) = PyVal.none ∧
    isNotNone (load_robust_json (some "null".data)) = false :=
  ⟨rfl, rfl⟩

/-- C10 (amended): every *failure* path of `load_robust_json` indeed
returns the empty list, never `None`; the loader returns `None` exactly
when strategy 1 succeeds with the JSON literal `null`, which is
therefore the one way the driver's guard can fail and its else-branch
be reached. -/
theorem c10_none_only_from_null (file : Option (List Char)) :
    load_robust_json file = PyVal.none ↔
      ∃ content, file = some content ∧ strategy1 content = some PyVal.none := by
  cases file with
  | none =>
    simp only [load_robust_json]
    constructor
    · intro h
      cases h
    · rintro ⟨c, hc, -⟩
      cases hc
  | some content =>
    constructor
    · intro h
      refine ⟨content, rfl, ?_⟩
      simp only [load_robust_json] at h
      rcases hs : strategy1 content with _ | v
      · simp only [hs] at h
        rcases hsal : salvage content with e | items
        · simp only [hsal] at h
          cases h
        · cases items with
          | nil =>
            simp only [hsal] at h
            cases h
          | cons a as =>
            simp only [hsal] at h
            cases h
      · simp only [hs] at h
        rw [h]
    · rintro ⟨c, hc, hstrat⟩
      cases hc
      simp only [load_robust_json, hstrat]
